import Mathlib

/-!
Verification development for the hentaifox_downloader core
(`core/converter.py`, `core/history.py`, `core/downloader.py`,
`core/sites/hentaifox.py`), as a shallow embedding in Lean 4.

Python strings are modelled as `List Char` (wrapped in `String` where
convenient).  External collaborators (PIL image decoding, zipfile, the
gallery-dl subprocess, SQLite's clock) are modelled as explicit oracle
parameters, matching the spec's "external collaborator" boundary; the
Unicode character classifications the natural-sort key consumes
(decimal digits for regex and int(), the str.isdigit property, and the
str.lower mapping) are likewise an explicit data parameter.
-/

namespace HFox

deriving instance DecidableEq for Except

/-! ### Python value-comparison semantics

Python compares `int`s numerically, `str`s lexicographically by code
point, and raises `TypeError` on `int` vs `str` (modelled as `none`).
Lists compare element-wise with length as tie-breaker. -/

/-- Three-way comparison on `Nat`, mirroring Python `int` comparison. -/
def cmpNat (m n : Nat) : Ordering :=
  if m < n then .lt else if n < m then .gt else .eq

/-- Lexicographic comparison of lists given an element comparison,
mirroring Python sequence comparison (shorter prefix is smaller). -/
def lexCmp (f : α → α → Ordering) : List α → List α → Ordering
  | [], [] => .eq
  | [], _ :: _ => .lt
  | _ :: _, [] => .gt
  | a :: as, b :: bs =>
    match f a b with
    | .eq => lexCmp f as bs
    | .lt => .lt
    | .gt => .gt

/-- Python `str` comparison is by Unicode code point. -/
def cmpChar (c d : Char) : Ordering := cmpNat c.toNat d.toNat

/-- An element of a Python natural-sort key list: either a lowered
string piece or a parsed integer piece. -/
inductive NK where
  | str : List Char → NK
  | num : Nat → NK
deriving DecidableEq

/-- Python comparison of two key elements; `none` is `TypeError`
(`int` vs `str` is not comparable). -/
def pyCmpElem : NK → NK → Option Ordering
  | .num m, .num n => some (cmpNat m n)
  | .str a, .str b => some (lexCmp cmpChar a b)
  | _, _ => none

/-- Python comparison of two key lists: scan for the first non-equal
pair, compare it (possibly a `TypeError`), lengths break ties. -/
def pyCmpList : List NK → List NK → Option Ordering
  | [], [] => some .eq
  | [], _ :: _ => some .lt
  | _ :: _, [] => some .gt
  | a :: as, b :: bs =>
    match pyCmpElem a b with
    | none => none
    | some .eq => pyCmpList as bs
    | some .lt => some .lt
    | some .gt => some .gt

/-! ### Unicode character data and `_natural_sort_key`

`GalleryConverter._natural_sort_key` (converter.py:44-47) is
`[int(c) if c.isdigit() else c.lower() for c in re.split(r'(\d+)', text)]`.
Three pieces of Unicode character data are consumed here, all external
to the program: the regex class `\d` and `int()` use the category-Nd
decimal digits (with their digit values), `str.isdigit` accepts a
strictly larger digit-property class (it also holds of superscript two,
for example), and `str.lower` maps a string through the Unicode case
mappings.  This data is an explicit parameter of the embedding; `int()`
on an isdigit-true piece containing a non-decimal digit raises
ValueError, modelled by `Except` carrying the offending piece. -/

/-- The Unicode character data `_natural_sort_key` consumes: `ndVal c`
is the decimal value of `c` when `c` is a category-Nd decimal digit
(the class regex `\d` matches and `int()` accepts), `isdigitChar` is
the `str.isdigit` character property, and `lowerStr` is the `str.lower`
string mapping. -/
structure UnicodeData where
  ndVal : Char → Option Nat
  isdigitChar : Char → Bool
  lowerStr : List Char → List Char

/-- The Unicode database guarantees that every decimal digit satisfies
`str.isdigit`. -/
def UnicodeData.WF (U : UnicodeData) : Prop :=
  ∀ c, (U.ndVal c).isSome = true → U.isdigitChar c = true

/-- Whether `c` is a decimal digit (matched by `\d`). -/
def isNd (U : UnicodeData) (c : Char) : Bool := (U.ndVal c).isSome

/-- Fueled splitter for `re.split(r'(\d+)', text)`: peel a maximal
non-digit run, then a maximal decimal-digit run, and recurse; the fuel
makes the recursion structural and kernel-reducible. -/
def splitDigitRuns (U : UnicodeData) : Nat → List Char → List (List Char)
  | 0, s => [s]
  | fuel + 1, s =>
    let nd := s.takeWhile (fun c => !isNd U c)
    let rest := s.dropWhile (fun c => !isNd U c)
    match rest with
    | [] => [nd]
    | _ :: _ =>
      nd :: rest.takeWhile (isNd U) :: splitDigitRuns U fuel (rest.dropWhile (isNd U))

/-- Model of Python `re.split(r'(\d+)', text)`. -/
def pySplitDigits (U : UnicodeData) (s : List Char) : List (List Char) :=
  splitDigitRuns U (s.length + 1) s

/-- Python `str.isdigit`: nonempty and every character has the digit
property. -/
def pyIsdigit (U : UnicodeData) (l : List Char) : Bool :=
  !l.isEmpty && l.all U.isdigitChar

/-- Python `int(...)`: succeeds on decimal-digit strings with the
base-10 value built from the digits' decimal values; on any other
isdigit-true piece it raises ValueError (`none`). -/
def intOfPiece (U : UnicodeData) (l : List Char) : Option Nat :=
  if l.all (fun c => isNd U c) then
    some (l.foldl (fun n c => n * 10 + (U.ndVal c).getD 0) 0)
  else none

/-- One comprehension step of `_natural_sort_key`:
`int(c) if c.isdigit() else c.lower()`; the error carries the piece
`int()` rejected. -/
def pieceVal (U : UnicodeData) (l : List Char) : Except (List Char) NK :=
  if pyIsdigit U l then
    match intOfPiece U l with
    | some n => .ok (.num n)
    | none => .error l
  else .ok (.str (U.lowerStr l))

/-- Left-to-right evaluation of the key comprehension: the first
ValueError propagates. -/
def piecesVals (U : UnicodeData) : List (List Char) → Except (List Char) (List NK)
  | [] => .ok []
  | p :: ps =>
    match pieceVal U p, piecesVals U ps with
    | .ok v, .ok vs => .ok (v :: vs)
    | .error e, _ => .error e
    | .ok _, .error e => .error e

/-- `GalleryConverter._natural_sort_key` (converter.py:44-47). -/
def natural_sort_key (U : UnicodeData) (s : List Char) : Except (List Char) (List NK) :=
  piecesVals U (pySplitDigits U s)

/-- The ASCII fragment of the Unicode data: the decimal digits are 0-9
and lowering maps A-Z. -/
def asciiData : UnicodeData where
  ndVal := fun c => if c.isDigit then some (c.toNat - 48) else none
  isdigitChar := fun c => c.isDigit
  lowerStr := fun l => l.map Char.toLower

theorem asciiData_wf : asciiData.WF := by
  intro c h
  by_cases hd : c.isDigit
  · simpa [asciiData] using hd
  · simp [asciiData, hd] at h

/-- ASCII data extended with superscript two (U+00B2): it has the
`str.isdigit` property but is not a decimal digit, so `int` on it
raises ValueError. -/
def super2Data : UnicodeData :=
  { asciiData with isdigitChar := fun c => c.isDigit || c == Char.ofNat 178 }

/-- ASCII data extended with the Arabic-Indic decimal digits
U+0660-U+0669 (category Nd, digit values 0-9). -/
def arabicData : UnicodeData :=
  { asciiData with
    ndVal := fun c =>
      if c.isDigit then some (c.toNat - 48)
      else if 1632 ≤ c.toNat ∧ c.toNat ≤ 1641 then some (c.toNat - 1632) else none
    isdigitChar := fun c =>
      c.isDigit || (decide (1632 ≤ c.toNat) && decide (c.toNat ≤ 1641)) }

/-- The filename `²3.png` (superscript two, then the digit 3): its
leading split piece is isdigit-true but not a decimal digit. -/
def super23name : String := String.mk [Char.ofNat 178, '3', '.', 'p', 'n', 'g']

/-! ### Alternation invariant of successfully computed keys -/

/-- `AltKey false l` says `l` holds string elements at even positions and
numeric elements at odd positions (`AltKey true l` is the phase-shifted
variant, numeric first). -/
inductive AltKey : Bool → List NK → Prop
  | nil (b : Bool) : AltKey b []
  | strHead (cs : List Char) (l : List NK) : AltKey true l → AltKey false (.str cs :: l)
  | numHead (n : Nat) (l : List NK) : AltKey false l → AltKey true (.num n :: l)

theorem dropWhile_head_eq_false (p : Char → Bool) :
    ∀ (s : List Char) (c : Char) (t : List Char), s.dropWhile p = c :: t → p c = false := by
  intro s
  induction s with
  | nil => intro c t h; simp [List.dropWhile] at h
  | cons a s ih =>
    intro c t h
    rw [List.dropWhile_cons] at h
    split at h
    · exact ih c t h
    · rename_i ha
      injection h with h1 _
      subst h1
      simpa using ha

/-- A piece free of decimal digits either raises (when it still has the
isdigit property, e.g. superscript two) or lowers to a string element. -/
theorem pieceVal_no_nd (U : UnicodeData) (l : List Char) (h : ∀ c ∈ l, isNd U c = false) :
    pieceVal U l = .error l ∨ pieceVal U l = .ok (.str (U.lowerStr l)) := by
  by_cases hd : pyIsdigit U l = true
  · left
    have hne : l ≠ [] := by
      intro hnil
      subst hnil
      simp [pyIsdigit] at hd
    have hnone : intOfPiece U l = none := by
      cases l with
      | nil => exact absurd rfl hne
      | cons c t =>
        have hall : (c :: t).all (fun x => isNd U x) = false := by
          simp [List.all_cons, h c (List.mem_cons_self c t)]
        unfold intOfPiece
        rw [hall]
        rfl
    unfold pieceVal
    rw [if_pos hd, hnone]
  · right
    unfold pieceVal
    rw [if_neg hd]

/-- A nonempty decimal-digit run always parses to a numeric element. -/
theorem pieceVal_ndrun (U : UnicodeData) (hWF : U.WF) (l : List Char) (hne : l ≠ [])
    (h : ∀ c ∈ l, isNd U c = true) :
    pieceVal U l = .ok (.num (l.foldl (fun n c => n * 10 + (U.ndVal c).getD 0) 0)) := by
  have hdig : pyIsdigit U l = true := by
    unfold pyIsdigit
    cases l with
    | nil => exact absurd rfl hne
    | cons c t =>
      simp only [List.isEmpty_cons, Bool.not_false, Bool.true_and, List.all_eq_true]
      intro x hx
      exact hWF x (h x hx)
  have hall : l.all (fun c => isNd U c) = true := List.all_eq_true.mpr (fun x hx => h x hx)
  have hint : intOfPiece U l =
      some (l.foldl (fun n c => n * 10 + (U.ndVal c).getD 0) 0) := by
    unfold intOfPiece
    rw [hall]
    rfl
  unfold pieceVal
  rw [if_pos hdig, hint]

/-- A raising piece is an isdigit-true piece (and the carried payload is
the piece itself). -/
theorem pieceVal_error_imp (U : UnicodeData) (l e : List Char)
    (h : pieceVal U l = .error e) : pyIsdigit U l = true ∧ e = l := by
  unfold pieceVal at h
  by_cases hd : pyIsdigit U l = true
  · rw [if_pos hd] at h
    cases hint : intOfPiece U l with
    | some n => rw [hint] at h; exact absurd h (by simp)
    | none =>
      rw [hint] at h
      injection h with h2
      exact ⟨hd, h2.symm⟩
  · rw [if_neg hd] at h
    exact absurd h (by simp)

theorem altKey_piecesVals_ok (U : UnicodeData) (hWF : U.WF) :
    ∀ (fuel : Nat) (s : List Char) (k : List NK), s.length < fuel →
      piecesVals U (splitDigitRuns U fuel s) = .ok k → AltKey false k := by
  intro fuel
  induction fuel with
  | zero => intro s k h _; exact absurd h (Nat.not_lt_zero _)
  | succ fuel ih =>
    intro s k hs hok
    have hnd : ∀ c ∈ s.takeWhile (fun c => !isNd U c), isNd U c = false := by
      intro c hc
      have := List.mem_takeWhile_imp hc
      simpa using this
    cases hrest : s.dropWhile (fun c => !isNd U c) with
    | nil =>
      simp only [splitDigitRuns, hrest] at hok
      rcases pieceVal_no_nd U _ hnd with he | hv0
      · simp [piecesVals, he] at hok
      · simp only [piecesVals, hv0] at hok
        injection hok with h2
        subst h2
        exact AltKey.strHead _ _ (AltKey.nil _)
    | cons c t =>
      have hc : isNd U c = true := by
        have := dropWhile_head_eq_false (fun c => !isNd U c) s c t hrest
        simpa using this
      have hdrun : ∀ d ∈ (c :: t).takeWhile (isNd U), isNd U d = true := by
        intro d hd
        exact List.mem_takeWhile_imp hd
      have hdrunne : (c :: t).takeWhile (isNd U) ≠ [] := by
        simp [List.takeWhile_cons, hc]
      have hlen : ((c :: t).dropWhile (isNd U)).length < fuel := by
        have h1 : (c :: t).length ≤ s.length := by
          rw [← hrest]; exact (List.dropWhile_sublist _).length_le
        have h2 : ((c :: t).dropWhile (isNd U)).length = (t.dropWhile (isNd U)).length := by
          rw [List.dropWhile_cons_of_pos hc]
        have h3 : (t.dropWhile (isNd U)).length ≤ t.length :=
          (List.dropWhile_sublist _).length_le
        simp only [List.length_cons] at h1
        omega
      simp only [splitDigitRuns, hrest] at hok
      rcases pieceVal_no_nd U _ hnd with he | hv0
      · simp [piecesVals, he] at hok
      · have hv1 := pieceVal_ndrun U hWF _ hdrunne hdrun
        cases htail : piecesVals U (splitDigitRuns U fuel ((c :: t).dropWhile (isNd U))) with
        | error e => simp [piecesVals, hv0, hv1, htail] at hok
        | ok vs =>
          simp only [piecesVals, hv0, hv1, htail] at hok
          injection hok with h2
          subst h2
          exact AltKey.strHead _ _ (AltKey.numHead _ _ (ih _ _ hlen htail))

theorem altKey_natural_sort_key_ok (U : UnicodeData) (hWF : U.WF) (s : List Char)
    (k : List NK) (h : natural_sort_key U s = .ok k) : AltKey false k :=
  altKey_piecesVals_ok U hWF (s.length + 1) s k (Nat.lt_succ_self _) h

theorem piecesVals_ok_of_no_exotic (U : UnicodeData) (hWF : U.WF) :
    ∀ (fuel : Nat) (s : List Char), s.length < fuel →
      (∀ c ∈ s, U.isdigitChar c = true → isNd U c = true) →
      ∃ k, piecesVals U (splitDigitRuns U fuel s) = .ok k := by
  intro fuel
  induction fuel with
  | zero => intro s h _; exact absurd h (Nat.not_lt_zero _)
  | succ fuel ih =>
    intro s hs hexo
    have hnd : ∀ c ∈ s.takeWhile (fun c => !isNd U c), isNd U c = false := by
      intro c hc
      have := List.mem_takeWhile_imp hc
      simpa using this
    have hv0 : pieceVal U (s.takeWhile (fun c => !isNd U c)) =
        .ok (.str (U.lowerStr (s.takeWhile (fun c => !isNd U c)))) := by
      rcases pieceVal_no_nd U _ hnd with he | hv
      · exfalso
        obtain ⟨hdig, _⟩ := pieceVal_error_imp U _ _ he
        unfold pyIsdigit at hdig
        rw [Bool.and_eq_true, List.all_eq_true] at hdig
        cases hTW : s.takeWhile (fun c => !isNd U c) with
        | nil => rw [hTW] at hdig; simp at hdig
        | cons c t =>
          have hcs : c ∈ s := (List.takeWhile_sublist _).subset (by rw [hTW]; exact List.mem_cons_self c t)
          have hcd : U.isdigitChar c = true := by
            have := hdig.2 c
            rw [hTW] at this
            exact this (List.mem_cons_self c t)
          have h1 : isNd U c = true := hexo c hcs hcd
          have h2 : isNd U c = false := hnd c (by rw [hTW]; exact List.mem_cons_self c t)
          rw [h1] at h2
          simp at h2
      · exact hv
    cases hrest : s.dropWhile (fun c => !isNd U c) with
    | nil =>
      refine ⟨[.str (U.lowerStr (s.takeWhile (fun c => !isNd U c)))], ?_⟩
      simp only [splitDigitRuns, hrest, piecesVals, hv0]
    | cons c t =>
      have hc : isNd U c = true := by
        have := dropWhile_head_eq_false (fun c => !isNd U c) s c t hrest
        simpa using this
      have hdrun : ∀ d ∈ (c :: t).takeWhile (isNd U), isNd U d = true := by
        intro d hd
        exact List.mem_takeWhile_imp hd
      have hdrunne : (c :: t).takeWhile (isNd U) ≠ [] := by
        simp [List.takeWhile_cons, hc]
      have hlen : ((c :: t).dropWhile (isNd U)).length < fuel := by
        have h1 : (c :: t).length ≤ s.length := by
          rw [← hrest]; exact (List.dropWhile_sublist _).length_le
        have h2 : ((c :: t).dropWhile (isNd U)).length = (t.dropWhile (isNd U)).length := by
          rw [List.dropWhile_cons_of_pos hc]
        have h3 : (t.dropWhile (isNd U)).length ≤ t.length :=
          (List.dropWhile_sublist _).length_le
        simp only [List.length_cons] at h1
        omega
      have hexo2 : ∀ d ∈ (c :: t).dropWhile (isNd U), U.isdigitChar d = true → isNd U d = true := by
        intro d hd hdig
        have hds : d ∈ s := by
          have hd2 : d ∈ c :: t := (List.dropWhile_sublist _).subset hd
          rw [← hrest] at hd2
          exact (List.dropWhile_sublist _).subset hd2
        exact hexo d hds hdig
      obtain ⟨ks, hks⟩ := ih ((c :: t).dropWhile (isNd U)) hlen hexo2
      have hv1 := pieceVal_ndrun U hWF _ hdrunne hdrun
      refine ⟨.str (U.lowerStr (s.takeWhile (fun c => !isNd U c))) ::
        .num (((c :: t).takeWhile (isNd U)).foldl (fun n c => n * 10 + (U.ndVal c).getD 0) 0) :: ks, ?_⟩
      simp only [splitDigitRuns, hrest, piecesVals, hv0, hv1, hks]

theorem natural_sort_key_ok_of_no_exotic (U : UnicodeData) (hWF : U.WF) (s : List Char)
    (hexo : ∀ c ∈ s, U.isdigitChar c = true → isNd U c = true) :
    ∃ k, natural_sort_key U s = .ok k :=
  piecesVals_ok_of_no_exotic U hWF (s.length + 1) s (Nat.lt_succ_self _) hexo

theorem pyCmpList_isSome_of_alt :
    ∀ (k1 : List NK) (b : Bool) (k2 : List NK), AltKey b k1 → AltKey b k2 →
      (pyCmpList k1 k2).isSome := by
  intro k1
  induction k1 with
  | nil => intro b k2 _ _; cases k2 <;> simp [pyCmpList]
  | cons a as ih =>
    intro b k2 h1 h2
    cases k2 with
    | nil => simp [pyCmpList]
    | cons c cs =>
      cases h1 with
      | strHead x l1 hl1 =>
        cases h2 with
        | strHead y l2 hl2 =>
          cases hc : lexCmp cmpChar x y <;>
            simp only [pyCmpList, pyCmpElem, hc, Option.isSome_some]
          exact ih true _ hl1 hl2
      | numHead m l1 hl1 =>
        cases h2 with
        | numHead n l2 hl2 =>
          cases hc : cmpNat m n <;>
            simp only [pyCmpList, pyCmpElem, hc, Option.isSome_some]
          exact ih false _ hl1 hl2

/-- C10 counterexample: with the real Unicode data for superscript two
(`str.isdigit` holds of it, but it is not a decimal digit),
`_natural_sort_key` on the supported image name `²3.png` raises
ValueError on the piece `²` instead of returning a key, so
`get_image_files` does not terminate normally on every filename set. -/
theorem C10_natural_sort_key_counterexample :
    natural_sort_key super2Data super23name.data = .error [Char.ofNat 178] ∧
    pyIsdigit super2Data [Char.ofNat 178] = true ∧
    isNd super2Data (Char.ofNat 178) = false := by
  decide

/-- C10 (amended): comparison of successfully computed natural-sort
keys is total — the split places numeric elements only at odd positions
of every computed key, so any two such keys hold integers and strings
at matching positions and comparing them is never an int-vs-str type
error; and the key computation itself succeeds for every filename free
of digit-property non-decimal characters, so `get_image_files`
terminates without raising on such filename sets.  (On other names
`_natural_sort_key` raises ValueError: see the counterexample.) -/
theorem C10_natural_sort_key_comparison_total (U : UnicodeData) (hWF : U.WF) :
    (∀ (s t : List Char) (ks kt : List NK),
      natural_sort_key U s = .ok ks → natural_sort_key U t = .ok kt →
      (pyCmpList ks kt).isSome) ∧
    (∀ s : List Char, (∀ c ∈ s, U.isdigitChar c = true → isNd U c = true) →
      ∃ k, natural_sort_key U s = .ok k) := by
  constructor
  · intro s t ks kt hs ht
    exact pyCmpList_isSome_of_alt _ false _ (altKey_natural_sort_key_ok U hWF s ks hs)
      (altKey_natural_sort_key_ok U hWF t kt ht)
  · intro s hexo
    exact natural_sort_key_ok_of_no_exotic U hWF s hexo

theorem C10_natural_sort_key_comparison_total_witness :
    (∃ k, natural_sort_key asciiData ("img2.png".data) = .ok k) ∧
    (pyCmpList [NK.str ("img".data), NK.num 2, NK.str (".png".data)]
      [NK.str ("img".data), NK.num 10, NK.str (".png".data)]).isSome := by
  have h := C10_natural_sort_key_comparison_total asciiData asciiData_wf
  exact ⟨h.2 ("img2.png".data) (by decide),
    h.1 ("img2.png".data) ("img10.png".data) _ _ (by decide) (by decide)⟩

/-! ### Order-theoretic facts about the Python comparisons -/

theorem cmpNat_eq_iff (m n : Nat) : cmpNat m n = .eq ↔ m = n := by
  unfold cmpNat; split_ifs <;> simp <;> omega

theorem cmpNat_lt_iff (m n : Nat) : cmpNat m n = .lt ↔ m < n := by
  unfold cmpNat; split_ifs <;> simp <;> omega

theorem cmpNat_swap (m n : Nat) : cmpNat n m = (cmpNat m n).swap := by
  unfold cmpNat; split_ifs <;> simp [Ordering.swap] <;> omega

theorem char_toNat_inj {c d : Char} (h : c.toNat = d.toNat) : c = d := by
  have h2 := congrArg Char.ofNat h
  rwa [Char.ofNat_toNat, Char.ofNat_toNat] at h2

theorem cmpChar_eq_iff (c d : Char) : cmpChar c d = .eq ↔ c = d := by
  unfold cmpChar
  rw [cmpNat_eq_iff]
  exact ⟨char_toNat_inj, fun h => h ▸ rfl⟩

theorem cmpChar_swap (c d : Char) : cmpChar d c = (cmpChar c d).swap :=
  cmpNat_swap _ _

theorem cmpChar_lt_trans {a b c : Char} (h1 : cmpChar a b = .lt) (h2 : cmpChar b c = .lt) :
    cmpChar a c = .lt := by
  unfold cmpChar at *
  rw [cmpNat_lt_iff] at *
  omega

theorem lexCmp_eq_iff (f : α → α → Ordering) (hf : ∀ a b, f a b = .eq ↔ a = b) :
    ∀ l1 l2 : List α, lexCmp f l1 l2 = .eq ↔ l1 = l2 := by
  intro l1
  induction l1 with
  | nil => intro l2; cases l2 <;> simp [lexCmp]
  | cons a as ih =>
    intro l2
    cases l2 with
    | nil => simp [lexCmp]
    | cons b bs =>
      cases hab : f a b with
      | eq =>
        have hab2 : a = b := (hf a b).mp hab
        subst hab2
        simp [lexCmp, hab, ih bs]
      | lt =>
        have : a ≠ b := fun h => by subst h; rw [(hf a a).mpr rfl] at hab; exact absurd hab (by simp)
        simp [lexCmp, hab, this]
      | gt =>
        have : a ≠ b := fun h => by subst h; rw [(hf a a).mpr rfl] at hab; exact absurd hab (by simp)
        simp [lexCmp, hab, this]

theorem lexCmp_swap (f : α → α → Ordering) (hf : ∀ a b, f b a = (f a b).swap) :
    ∀ l1 l2 : List α, lexCmp f l2 l1 = (lexCmp f l1 l2).swap := by
  intro l1
  induction l1 with
  | nil => intro l2; cases l2 <;> simp [lexCmp, Ordering.swap]
  | cons a as ih =>
    intro l2
    cases l2 with
    | nil => simp [lexCmp, Ordering.swap]
    | cons b bs =>
      cases hab : f a b with
      | eq =>
        have hba2 : f b a = .eq := by rw [hf a b, hab]; rfl
        simp only [lexCmp, hab, hba2]
        exact ih bs
      | lt =>
        have hba2 : f b a = .gt := by rw [hf a b, hab]; rfl
        simp [lexCmp, hab, hba2, Ordering.swap]
      | gt =>
        have hba2 : f b a = .lt := by rw [hf a b, hab]; rfl
        simp [lexCmp, hab, hba2, Ordering.swap]

theorem lexCmp_lt_trans (f : α → α → Ordering) (hfeq : ∀ a b, f a b = .eq ↔ a = b)
    (hflt : ∀ a b c, f a b = .lt → f b c = .lt → f a c = .lt) :
    ∀ l1 l2 l3 : List α, lexCmp f l1 l2 = .lt → lexCmp f l2 l3 = .lt → lexCmp f l1 l3 = .lt := by
  intro l1
  induction l1 with
  | nil =>
    intro l2 l3 h12 h23
    cases l3 with
    | nil =>
      cases l2 with
      | nil => simp [lexCmp] at h12
      | cons b bs => simp [lexCmp] at h23
    | cons c cs => simp [lexCmp]
  | cons a as ih =>
    intro l2 l3 h12 h23
    cases l2 with
    | nil => simp [lexCmp] at h12
    | cons b bs =>
      cases l3 with
      | nil => simp [lexCmp] at h23
      | cons c cs =>
        cases hab : f a b with
        | gt => simp [lexCmp, hab] at h12
        | eq =>
          have hab2 : a = b := (hfeq a b).mp hab
          subst hab2
          rw [lexCmp, hab] at h12
          cases hbc : f a c with
          | gt => simp [lexCmp, hbc] at h23
          | lt => simp [lexCmp, hbc]
          | eq =>
            rw [lexCmp, hbc] at h23
            simp only [lexCmp, hbc]
            exact ih bs cs h12 h23
        | lt =>
          cases hbc : f b c with
          | gt => simp [lexCmp, hbc] at h23
          | eq =>
            have hbc2 : b = c := (hfeq b c).mp hbc
            subst hbc2
            simp [lexCmp, hab]
          | lt => simp [lexCmp, hflt a b c hab hbc]

/-! ### Lifting to key lists -/

theorem pyCmpElem_eq_imp {a b : NK} (h : pyCmpElem a b = some .eq) : a = b := by
  cases a <;> cases b <;> simp [pyCmpElem] at h ⊢
  · exact (lexCmp_eq_iff cmpChar cmpChar_eq_iff _ _).mp h
  · exact (cmpNat_eq_iff _ _).mp h

theorem pyCmpElem_swap (a b : NK) : pyCmpElem b a = (pyCmpElem a b).map Ordering.swap := by
  cases a with
  | str x =>
    cases b with
    | str y =>
      simp only [pyCmpElem]
      rw [lexCmp_swap cmpChar cmpChar_swap x y]
      rfl
    | num n => rfl
  | num m =>
    cases b with
    | str y => rfl
    | num n =>
      simp only [pyCmpElem]
      rw [cmpNat_swap m n]
      rfl

theorem pyCmpElem_lt_trans {a b c : NK} (h1 : pyCmpElem a b = some .lt)
    (h2 : pyCmpElem b c = some .lt) : pyCmpElem a c = some .lt := by
  cases a <;> cases b <;> cases c <;> simp [pyCmpElem] at h1 h2 ⊢
  · exact lexCmp_lt_trans cmpChar cmpChar_eq_iff (fun _ _ _ => cmpChar_lt_trans) _ _ _ h1 h2
  · rw [cmpNat_lt_iff] at h1 h2 ⊢; omega

theorem pyCmpList_swap : ∀ k1 k2 : List NK, pyCmpList k2 k1 = (pyCmpList k1 k2).map Ordering.swap := by
  intro k1
  induction k1 with
  | nil => intro k2; cases k2 <;> simp [pyCmpList, Ordering.swap]
  | cons a as ih =>
    intro k2
    cases k2 with
    | nil => simp [pyCmpList, Ordering.swap]
    | cons b bs =>
      cases hab : pyCmpElem a b with
      | none =>
        have hba2 : pyCmpElem b a = none := by rw [pyCmpElem_swap a b, hab]; rfl
        simp [pyCmpList, hab, hba2]
      | some o =>
        cases o with
        | eq =>
          have hba2 : pyCmpElem b a = some .eq := by rw [pyCmpElem_swap a b, hab]; rfl
          simp only [pyCmpList, hab, hba2]
          exact ih bs
        | lt =>
          have hba2 : pyCmpElem b a = some .gt := by rw [pyCmpElem_swap a b, hab]; rfl
          simp [pyCmpList, hab, hba2, Ordering.swap]
        | gt =>
          have hba2 : pyCmpElem b a = some .lt := by rw [pyCmpElem_swap a b, hab]; rfl
          simp [pyCmpList, hab, hba2, Ordering.swap]

theorem pyCmpList_le_trans :
    ∀ (k1 : List NK) (b : Bool) (k2 k3 : List NK), AltKey b k1 → AltKey b k2 → AltKey b k3 →
      pyCmpList k1 k2 ≠ some .gt → pyCmpList k2 k3 ≠ some .gt → pyCmpList k1 k3 ≠ some .gt := by
  intro k1
  induction k1 with
  | nil =>
    intro b k2 k3 _ _ _ _ _
    cases k3 <;> simp [pyCmpList]
  | cons a as ih =>
    intro b k2 k3 ha1 ha2 ha3 h12 h23
    cases k2 with
    | nil => cases k3 <;> simp [pyCmpList] at h12 ⊢
    | cons y ys =>
      cases k3 with
      | nil => simp [pyCmpList] at h23
      | cons z zs =>
        cases ha1 with
        | strHead x l1 hx =>
          cases ha2 with
          | strHead y2 l2 hy =>
            cases ha3 with
            | strHead z2 l3 hz =>
              cases hxy : lexCmp cmpChar x y2 with
              | gt => simp [pyCmpList, pyCmpElem, hxy] at h12
              | eq =>
                have : x = y2 := (lexCmp_eq_iff cmpChar cmpChar_eq_iff _ _).mp hxy
                subst this
                rw [pyCmpList, pyCmpElem] at h12
                simp only [hxy] at h12
                cases hyz : lexCmp cmpChar x z2 with
                | gt => simp [pyCmpList, pyCmpElem, hyz] at h23
                | lt => simp [pyCmpList, pyCmpElem, hyz]
                | eq =>
                  rw [pyCmpList, pyCmpElem] at h23
                  simp only [hyz] at h23
                  simp only [pyCmpList, pyCmpElem, hyz]
                  exact ih true _ _ hx hy hz h12 h23
              | lt =>
                cases hyz : lexCmp cmpChar y2 z2 with
                | gt => simp [pyCmpList, pyCmpElem, hyz] at h23
                | eq =>
                  have : y2 = z2 := (lexCmp_eq_iff cmpChar cmpChar_eq_iff _ _).mp hyz
                  subst this
                  simp [pyCmpList, pyCmpElem, hxy]
                | lt =>
                  have hxz : lexCmp cmpChar x z2 = .lt :=
                    lexCmp_lt_trans cmpChar cmpChar_eq_iff (fun _ _ _ => cmpChar_lt_trans)
                      _ _ _ hxy hyz
                  simp [pyCmpList, pyCmpElem, hxz]
        | numHead m l1 hx =>
          cases ha2 with
          | numHead n l2 hy =>
            cases ha3 with
            | numHead p l3 hz =>
              cases hxy : cmpNat m n with
              | gt => simp [pyCmpList, pyCmpElem, hxy] at h12
              | eq =>
                have : m = n := (cmpNat_eq_iff _ _).mp hxy
                subst this
                rw [pyCmpList, pyCmpElem] at h12
                simp only [hxy] at h12
                cases hyz : cmpNat m p with
                | gt => simp [pyCmpList, pyCmpElem, hyz] at h23
                | lt => simp [pyCmpList, pyCmpElem, hyz]
                | eq =>
                  rw [pyCmpList, pyCmpElem] at h23
                  simp only [hyz] at h23
                  simp only [pyCmpList, pyCmpElem, hyz]
                  exact ih false _ _ hx hy hz h12 h23
              | lt =>
                cases hyz : cmpNat n p with
                | gt => simp [pyCmpList, pyCmpElem, hyz] at h23
                | eq =>
                  have : n = p := (cmpNat_eq_iff _ _).mp hyz
                  subst this
                  simp [pyCmpList, pyCmpElem, hxy]
                | lt =>
                  have hxz : cmpNat m p = .lt := by
                    rw [cmpNat_lt_iff] at hxy hyz ⊢; omega
                  simp [pyCmpList, pyCmpElem, hxz]

/-! ### The pair ordering of Python `sorted(..., key=_natural_sort_key)`

`sorted` computes every element's key first (a raising key propagates
out of the sort), then stable-sorts ascending using `<` on keys; the
sort is modelled by insertion sort on (name, key) pairs. -/

/-- `(a, ka)` may precede `(b, kb)` exactly when `kb < ka` fails — the
only comparison the sort performs. -/
def NKLe (p q : String × List NK) : Prop :=
  (pyCmpList q.snd p.snd == some Ordering.lt) = false

instance : DecidableRel NKLe := fun _ _ => inferInstanceAs (Decidable (_ = false))

theorem NKLe_iff (p q : String × List NK) :
    NKLe p q ↔ pyCmpList p.snd q.snd ≠ some .gt := by
  unfold NKLe
  rw [pyCmpList_swap]
  cases ho : pyCmpList p.snd q.snd with
  | none => simp
  | some o => cases o <;> simp [Ordering.swap] <;> decide

theorem NKLe_total (p q : String × List NK) : NKLe p q ∨ NKLe q p := by
  rw [NKLe_iff, NKLe_iff]
  by_cases h : pyCmpList p.snd q.snd = some .gt
  · right
    rw [pyCmpList_swap, h]
    simp [Ordering.swap]
  · exact Or.inl h

theorem NKLe_trans_of_alt {p q r : String × List NK} (hp : AltKey false p.snd)
    (hq : AltKey false q.snd) (hr : AltKey false r.snd)
    (h1 : NKLe p q) (h2 : NKLe q r) : NKLe p r := by
  rw [NKLe_iff] at h1 h2 ⊢
  exact pyCmpList_le_trans _ false _ _ hp hq hr h1 h2

/-- The key computations `sorted` performs up front, left to right; the
first ValueError propagates. -/
def keyPairs (U : UnicodeData) : List String → Except (List Char) (List (String × List NK))
  | [] => .ok []
  | nm :: rest =>
    match natural_sort_key U nm.data, keyPairs U rest with
    | .ok k, .ok ps => .ok ((nm, k) :: ps)
    | .error e, _ => .error e
    | .ok _, .error e => .error e

theorem keyPairs_ok (U : UnicodeData) :
    ∀ (names : List String) (pairs : List (String × List NK)),
      keyPairs U names = .ok pairs →
      pairs.map Prod.fst = names ∧ ∀ p ∈ pairs, natural_sort_key U p.fst.data = .ok p.snd := by
  intro names
  induction names with
  | nil =>
    intro pairs h
    have h2 : Except.ok ([] : List (String × List NK)) =
        Except.ok (ε := List Char) pairs := h
    injection h2 with h3
    subst h3
    exact ⟨rfl, by simp⟩
  | cons nm rest ih =>
    intro pairs h
    cases hk : natural_sort_key U nm.data with
    | error e => simp [keyPairs, hk] at h
    | ok k =>
      cases hr : keyPairs U rest with
      | error e => simp [keyPairs, hk, hr] at h
      | ok ps =>
        simp only [keyPairs, hk, hr] at h
        injection h with h2
        subst h2
        obtain ⟨hmap, hall⟩ := ih ps hr
        refine ⟨by simp [hmap], ?_⟩
        intro p hp
        rcases List.mem_cons.mp hp with rfl | hp2
        · exact hk
        · exact hall p hp2

theorem keyPairs_alt (U : UnicodeData) (hWF : U.WF) (names : List String)
    (pairs : List (String × List NK)) (h : keyPairs U names = .ok pairs) :
    ∀ p ∈ pairs, AltKey false p.snd := by
  intro p hp
  exact altKey_natural_sort_key_ok U hWF _ _ ((keyPairs_ok U names pairs h).2 p hp)

/-- Ordered insertion keeps sortedness when every involved key is
alternating (totality of the comparison is general; transitivity needs
the alternation invariant). -/
theorem sorted_orderedInsert_alt (x : String × List NK) (hx : AltKey false x.snd) :
    ∀ l : List (String × List NK), (∀ p ∈ l, AltKey false p.snd) → List.Sorted NKLe l →
      List.Sorted NKLe (List.orderedInsert NKLe x l) := by
  intro l
  induction l with
  | nil => intro _ _; simp [List.orderedInsert]
  | cons b t ih =>
    intro hl hs
    rw [List.orderedInsert]
    by_cases hxb : NKLe x b
    · rw [if_pos hxb]
      rw [List.sorted_cons]
      refine ⟨?_, hs⟩
      intro y hy
      rcases List.mem_cons.mp hy with rfl | hy2
      · exact hxb
      · have hby : NKLe b y := (List.sorted_cons.mp hs).1 y hy2
        exact NKLe_trans_of_alt hx (hl b (List.mem_cons_self b t))
          (hl y (List.mem_cons_of_mem b hy2)) hxb hby
    · rw [if_neg hxb]
      rw [List.sorted_cons]
      constructor
      · intro y hy
        rcases (List.mem_orderedInsert NKLe).mp hy with he | hy2
        · subst he
          exact (NKLe_total y b).resolve_left hxb
        · exact (List.sorted_cons.mp hs).1 y hy2
      · exact ih (fun p hp => hl p (List.mem_cons_of_mem b hp)) (List.sorted_cons.mp hs).2

theorem sorted_insertionSort_alt :
    ∀ l : List (String × List NK), (∀ p ∈ l, AltKey false p.snd) →
      List.Sorted NKLe (List.insertionSort NKLe l) := by
  intro l
  induction l with
  | nil => intro _; simp
  | cons x t ih =>
    intro hl
    rw [List.insertionSort]
    refine sorted_orderedInsert_alt x (hl x (List.mem_cons_self x t)) _ ?_ ?_
    · intro p hp
      exact hl p (List.mem_cons_of_mem x ((List.perm_insertionSort NKLe t).mem_iff.mp hp))
    · exact ih (fun p hp => hl p (List.mem_cons_of_mem x hp))

/-! ### Filesystem model and `GalleryConverter` (converter.py)

A filesystem maps a directory path to its entries (`none`: the
directory does not exist).  Entries within a directory are modelled by
their file names; the image-decoding, PDF-writing and ZIP-writing calls
into PIL/zipfile are external collaborators, modelled by a `ConvEnv`
oracle recording their outcomes. -/

/-- A directory entry: a name plus whether `is_file()` holds. -/
structure DirEntry where
  name : String
  isFile : Bool
deriving DecidableEq

/-- A filesystem: finite map from directory path to entry list. -/
abbrev FileSys := List (String × List DirEntry)

def fsLookup (fs : FileSys) (dir : String) : Option (List DirEntry) :=
  List.lookup dir fs

/-- `pathlib.PurePath.suffix`: the final extension with its dot; empty
when there is no dot, the only dot leads the name, or the dot is last. -/
def pathSuffix (name : String) : String :=
  let cs := name.data
  match (cs.enum.filter (fun p => p.snd == '.')).getLast? with
  | some p => if 0 < p.fst ∧ p.fst < cs.length - 1 then String.mk (cs.drop p.fst) else ""
  | none => ""

/-- Python `str.lower` (ASCII). -/
def pyLower (s : String) : String := String.mk (s.data.map Char.toLower)

/-- `GalleryConverter.supported_formats` (converter.py:29). -/
def supported_formats : List String :=
  [".jpg", ".jpeg", ".png", ".webp", ".gif", ".bmp"]

/-- The filter `file_path.suffix.lower() in self.supported_formats`. -/
def isSupportedImage (name : String) : Bool :=
  supported_formats.contains (pyLower (pathSuffix name))

/-- `GalleryConverter.get_image_files` (converter.py:31-42): files of
the directory with a supported extension, naturally sorted; computing a
sort key can raise ValueError, which propagates out of `sorted`. -/
def get_image_files (U : UnicodeData) (fs : FileSys) (dir : String) :
    Except (List Char) (List String) :=
  match fsLookup fs dir with
  | none => .ok []
  | some es =>
    match keyPairs U ((es.filter (fun e => e.isFile && isSupportedImage e.name)).map
        DirEntry.name) with
    | .error e => .error e
    | .ok pairs => .ok ((List.insertionSort NKLe pairs).map Prod.fst)

/-- `ConversionResult` (converter.py:16-22). -/
structure ConversionResult where
  success : Bool
  output_path : Option String
  input_files_count : Nat
  error_message : Option String
deriving DecidableEq

/-- Decoded-image metadata as far as the converter inspects it. -/
structure PImg where
  width : Nat
  height : Nat
deriving DecidableEq

/-- Oracle for the external collaborators of one conversion call:
per-file PIL decoding (`none`: `Image.open` raised and the file is
skipped), the outcome of the PDF save / ZIP open (an exception message
or success), the configuration values read, and the effect of writing
the output file. -/
structure ConvEnv where
  decode : String → Option PImg
  pdfSaveError : Option String
  cbzWriteError : Option String
  maxImageWidth : Nat
  writeOut : FileSys → String → FileSys

/-- Last path component (`pathlib.PurePath.name`). -/
def pathName (p : String) : String :=
  String.mk ((p.data.reverse.takeWhile (fun c => !(c == '/'))).reverse)

/-- Width cap applied per image before PDF assembly (converter.py:79-84);
the float ratio arithmetic is modelled by integer division. -/
def resizeForPdf (maxW : Nat) (img : PImg) : PImg :=
  if maxW < img.width then ⟨maxW, img.height * maxW / img.width⟩ else img

def fsSetDir (fs : FileSys) (dir : String) (es : List DirEntry) : FileSys :=
  fs.map (fun p => if p.fst == dir then (p.fst, es) else p)

def fsRemoveDir (fs : FileSys) (dir : String) : FileSys :=
  fs.filter (fun p => !(p.fst == dir))

/-- `GalleryConverter._delete_source_files` (converter.py:220-241):
delete the consumed image files, then remove the directory only if
nothing remains in it. -/
def delete_source_files (fs : FileSys) (dir : String) (files : List String) : FileSys :=
  match fsLookup fs dir with
  | none => fs
  | some es =>
    let remaining := es.filter (fun e => !(e.isFile && files.contains e.name))
    if remaining.isEmpty then fsRemoveDir fs dir else fsSetDir fs dir remaining

/-- Python `repr` of the rejected piece in the ValueError message
(quote-escaping inside the piece is not modelled). -/
def pyReprStr (l : List Char) : String :=
  String.mk (Char.ofNat 39 :: l ++ [Char.ofNat 39])

/-- `str(e)` for the ValueError `_natural_sort_key` raises, as caught
by the conversion methods' blanket exception handler. -/
def valueErrorMsg (piece : List Char) : String :=
  "invalid literal for int() with base 10: " ++ pyReprStr piece

/-- `GalleryConverter.convert_to_pdf` (converter.py:49-131); a
ValueError escaping `get_image_files` is caught by the blanket handler
with `input_files_count = 0` (the local is not yet bound there). -/
def convert_to_pdf (U : UnicodeData) (env : ConvEnv) (fs : FileSys) (source_dir : String)
    (output_path : Option String) (delete_source : Bool) (quality : Option Nat) :
    ConversionResult × FileSys :=
  match get_image_files U fs source_dir with
  | .error e => (⟨false, none, 0, some (valueErrorMsg e)⟩, fs)
  | .ok image_files =>
  if image_files.isEmpty then
    (⟨false, none, 0, some "No image files found in directory"⟩, fs)
  else
    let out := output_path.getD (source_dir ++ "/" ++ pathName source_dir ++ ".pdf")
    let pdf_images := (image_files.filterMap env.decode).map (resizeForPdf env.maxImageWidth)
    if pdf_images.isEmpty then
      (⟨false, none, image_files.length, some "No images could be processed"⟩, fs)
    else
      match env.pdfSaveError with
      | some e => (⟨false, none, image_files.length, some e⟩, fs)
      | none =>
        let fs1 := env.writeOut fs out
        let fs2 := if delete_source then delete_source_files fs1 source_dir image_files else fs1
        (⟨true, some out, image_files.length, none⟩, fs2)

/-- `GalleryConverter.convert_to_cbz` (converter.py:133-190); the
per-entry zero-padded renaming happens inside the external ZIP writer
and is not inspected by any claim. -/
def convert_to_cbz (U : UnicodeData) (env : ConvEnv) (fs : FileSys) (source_dir : String)
    (output_path : Option String) (delete_source : Bool) (quality : Option Nat) :
    ConversionResult × FileSys :=
  match get_image_files U fs source_dir with
  | .error e => (⟨false, none, 0, some (valueErrorMsg e)⟩, fs)
  | .ok image_files =>
  if image_files.isEmpty then
    (⟨false, none, 0, some "No image files found in directory"⟩, fs)
  else
    let out := output_path.getD (source_dir ++ "/" ++ pathName source_dir ++ ".cbz")
    match env.cbzWriteError with
    | some e => (⟨false, none, image_files.length, some e⟩, fs)
    | none =>
      let fs1 := env.writeOut fs out
      let fs2 := if delete_source then delete_source_files fs1 source_dir image_files else fs1
      (⟨true, some out, image_files.length, none⟩, fs2)

/-- `GalleryConverter.convert_gallery` (converter.py:243-259). -/
def convert_gallery (U : UnicodeData) (env : ConvEnv) (fs : FileSys) (source_dir : String)
    (format_type : String) (output_path : Option String) (delete_source : Bool)
    (quality : Option Nat) : ConversionResult × FileSys :=
  let ft := pyLower format_type
  if ft = "pdf" then convert_to_pdf U env fs source_dir output_path delete_source quality
  else if ft = "cbz" then convert_to_cbz U env fs source_dir output_path delete_source quality
  else (⟨false, none, 0, some ("Unsupported format: " ++ ft)⟩, fs)

/-! ### Claims C4, C5, C6 -/

theorem get_image_files_none (U : UnicodeData) (fs : FileSys) (dir : String)
    (h : fsLookup fs dir = none) : get_image_files U fs dir = .ok [] := by
  unfold get_image_files
  rw [h]

theorem get_image_files_some (U : UnicodeData) (fs : FileSys) (dir : String)
    (es : List DirEntry) (h : fsLookup fs dir = some es) :
    get_image_files U fs dir =
      match keyPairs U ((es.filter (fun e => e.isFile && isSupportedImage e.name)).map
          DirEntry.name) with
      | .error e => .error e
      | .ok pairs => .ok ((List.insertionSort NKLe pairs).map Prod.fst) := by
  unfold get_image_files
  rw [h]

theorem get_image_files_eq_nil (U : UnicodeData) (fs : FileSys) (dir : String)
    (h : ∀ e ∈ (fsLookup fs dir).getD [], ¬(e.isFile = true ∧ isSupportedImage e.name = true)) :
    get_image_files U fs dir = .ok [] := by
  cases hl : fsLookup fs dir with
  | none => exact get_image_files_none U fs dir hl
  | some es =>
    have h2 : es.filter (fun e => e.isFile && isSupportedImage e.name) = [] := by
      rw [List.filter_eq_nil_iff]
      intro e he
      have h3 := h e (by rw [hl]; exact he)
      simp only [Bool.and_eq_true]
      exact h3
    rw [get_image_files_some U fs dir es hl, h2]
    rfl

/-- The example directory of the claim. -/
def exampleFS : FileSys :=
  [("g", [⟨"img10.png", true⟩, ⟨"img2.png", true⟩, ⟨"img1.png", true⟩])]

/-- The Arabic-Indic numbered image names (digits two, and one-zero). -/
def arName2 : String := String.mk [Char.ofNat 1634, '.', 'p', 'n', 'g']

def arName10 : String := String.mk [Char.ofNat 1633, Char.ofNat 1632, '.', 'p', 'n', 'g']

def arabicFS : FileSys := [("a", [⟨arName10, true⟩, ⟨arName2, true⟩])]

/-- C4 counterexample: on a directory containing only the supported
image name `²3.png`, `get_image_files` raises ValueError instead of
returning a sorted list, so the universally quantified claim fails. -/
theorem C4_get_image_files_counterexample :
    isSupportedImage super23name = true ∧
    get_image_files super2Data [("d", [⟨super23name, true⟩])] "d" =
      .error [Char.ofNat 178] := by
  decide

/-- C4 (amended): whenever `get_image_files` returns (that is, every
supported filename's sort key computes without ValueError), the
returned list is the filtered listing sorted by the natural-sort rule —
decimal-digit runs compare numerically by digit value, other runs by
lowercased code-point order: it is pairwise ordered under the key
comparison and a permutation of the filtered names.  For the directory
holding exactly `img10.png`, `img2.png`, `img1.png` the returned order
is `img1.png, img2.png, img10.png`, and Arabic-Indic numbered names
sort numerically (`٢.png` before `١٠.png`). -/
theorem C4_get_image_files_natural_sort (U : UnicodeData) (hWF : U.WF) (fs : FileSys)
    (dir : String) (files : List String) (hok : get_image_files U fs dir = .ok files) :
    files.Pairwise (fun a b => ∀ ka kb, natural_sort_key U a.data = .ok ka →
      natural_sort_key U b.data = .ok kb →
      (pyCmpList kb ka == some Ordering.lt) = false) ∧
    files.Perm ((((fsLookup fs dir).getD []).filter
      (fun e => e.isFile && isSupportedImage e.name)).map DirEntry.name) ∧
    get_image_files asciiData exampleFS "g" =
      .ok ["img1.png", "img2.png", "img10.png"] ∧
    get_image_files arabicData arabicFS "a" = .ok [arName2, arName10] := by
  have hmain : files.Pairwise (fun a b => ∀ ka kb, natural_sort_key U a.data = .ok ka →
      natural_sort_key U b.data = .ok kb →
      (pyCmpList kb ka == some Ordering.lt) = false) ∧
      files.Perm ((((fsLookup fs dir).getD []).filter
        (fun e => e.isFile && isSupportedImage e.name)).map DirEntry.name) := by
    cases hl : fsLookup fs dir with
    | none =>
      rw [get_image_files_none U fs dir hl] at hok
      injection hok with h2
      subst h2
      exact ⟨List.Pairwise.nil, by simp [hl]⟩
    | some es =>
      rw [get_image_files_some U fs dir es hl] at hok
      cases hk : keyPairs U ((es.filter (fun e => e.isFile && isSupportedImage e.name)).map
          DirEntry.name) with
      | error e =>
        rw [hk] at hok
        exact absurd hok (by simp)
      | ok pairs =>
        rw [hk] at hok
        injection hok with h2
        subst h2
        obtain ⟨hmap, hkeys⟩ := keyPairs_ok U _ pairs hk
        have halt := keyPairs_alt U hWF _ pairs hk
        have hsorted := sorted_insertionSort_alt pairs halt
        constructor
        · rw [List.pairwise_map]
          apply List.Pairwise.imp_of_mem ?_ hsorted
          intro p q hp hq hle ka kb hka hkb
          have hp2 : p ∈ pairs := (List.perm_insertionSort NKLe pairs).mem_iff.mp hp
          have hq2 : q ∈ pairs := (List.perm_insertionSort NKLe pairs).mem_iff.mp hq
          have e1 : ka = p.snd := by
            have h4 := (hkeys p hp2).symm.trans hka
            exact (Except.ok.inj h4).symm
          have e2 : kb = q.snd := by
            have h4 := (hkeys q hq2).symm.trans hkb
            exact (Except.ok.inj h4).symm
          rw [e1, e2]
          exact hle
        · have hperm := (List.perm_insertionSort NKLe pairs).map Prod.fst
          rw [hmap] at hperm
          simpa [hl] using hperm
  exact ⟨hmain.1, hmain.2, by decide, by decide⟩

theorem C4_get_image_files_natural_sort_witness :
    (["img1.png", "img2.png", "img10.png"] : List String).Perm
      ((((fsLookup exampleFS "g").getD []).filter
        (fun e => e.isFile && isSupportedImage e.name)).map DirEntry.name) := by
  have h := C4_get_image_files_natural_sort asciiData asciiData_wf exampleFS "g"
    ["img1.png", "img2.png", "img10.png"] (by decide)
  exact h.2.1

theorem convert_gallery_pdf (U : UnicodeData) (env : ConvEnv) (fs : FileSys) (dir : String)
    (out : Option String) (ds : Bool) (q : Option Nat) :
    convert_gallery U env fs dir "pdf" out ds q = convert_to_pdf U env fs dir out ds q := by
  have hl : pyLower "pdf" = "pdf" := by decide
  unfold convert_gallery
  rw [hl]
  rw [if_pos rfl]

theorem convert_gallery_cbz (U : UnicodeData) (env : ConvEnv) (fs : FileSys) (dir : String)
    (out : Option String) (ds : Bool) (q : Option Nat) :
    convert_gallery U env fs dir "cbz" out ds q = convert_to_cbz U env fs dir out ds q := by
  have hl : pyLower "cbz" = "cbz" := by decide
  unfold convert_gallery
  rw [hl]
  rw [if_neg (by decide : ¬("cbz" : String) = "pdf")]
  rw [if_pos rfl]

/-- C5: with zero supported image files in the source directory
(including a nonexistent directory), `convert_gallery` for both `pdf`
and `cbz` returns `success = false`, `output_path = none`,
`input_files_count = 0` and a non-empty error message, and leaves the
filesystem unchanged. -/
theorem C5_convert_gallery_no_images (U : UnicodeData) (env : ConvEnv) (fs : FileSys)
    (dir : String) (out : Option String) (ds : Bool) (q : Option Nat)
    (h : ∀ e ∈ (fsLookup fs dir).getD [], ¬(e.isFile = true ∧ isSupportedImage e.name = true)) :
    convert_gallery U env fs dir "pdf" out ds q =
        (⟨false, none, 0, some "No image files found in directory"⟩, fs) ∧
    convert_gallery U env fs dir "cbz" out ds q =
        (⟨false, none, 0, some "No image files found in directory"⟩, fs) ∧
    ("No image files found in directory" : String) ≠ "" := by
  have hnil := get_image_files_eq_nil U fs dir h
  refine ⟨?_, ?_, by decide⟩
  · rw [convert_gallery_pdf]
    unfold convert_to_pdf
    rw [hnil]
    rfl
  · rw [convert_gallery_cbz]
    unfold convert_to_cbz
    rw [hnil]
    rfl

/-- A trivial conversion-oracle: every decode fails, saves succeed,
writes are no-ops. -/
def convEnvTriv : ConvEnv := ⟨fun _ => none, none, none, 2048, fun fs _ => fs⟩

theorem C5_convert_gallery_no_images_witness :
    convert_gallery asciiData convEnvTriv [] "d" "pdf" none false none =
      (⟨false, none, 0, some "No image files found in directory"⟩, ([] : FileSys)) :=
  (C5_convert_gallery_no_images asciiData convEnvTriv [] "d" none false none (by decide)).1

/-- C6: a format string whose lowercase form is neither `pdf` nor `cbz`
makes `convert_gallery` fail fast: it returns `success = false`,
`input_files_count = 0` and an error message naming the format, with the
filesystem returned unchanged and no directory listing consulted. -/
theorem C6_convert_gallery_unsupported_format (U : UnicodeData) (env : ConvEnv)
    (fs : FileSys) (dir fmt : String) (out : Option String) (ds : Bool) (q : Option Nat)
    (h1 : pyLower fmt ≠ "pdf") (h2 : pyLower fmt ≠ "cbz") :
    convert_gallery U env fs dir fmt out ds q =
      (⟨false, none, 0, some ("Unsupported format: " ++ pyLower fmt)⟩, fs) := by
  unfold convert_gallery
  rw [if_neg h1, if_neg h2]

theorem C6_convert_gallery_unsupported_format_witness :
    convert_gallery asciiData convEnvTriv [] "d" "ZIP" none false none =
      (⟨false, none, 0, some "Unsupported format: zip"⟩, ([] : FileSys)) := by
  have h := C6_convert_gallery_unsupported_format asciiData convEnvTriv [] "d" "ZIP"
    none false none (by decide) (by decide)
  rw [h]
  decide

/-! ### `GalleryInfo` (sites/base.py) and the history store (core/history.py)

The SQLite `downloads` table is modelled as a row list plus the
AUTOINCREMENT counter; `json.dumps` of the metadata map is modelled by
keeping the map value itself. -/

/-- `GalleryInfo` (sites/base.py:9-20). -/
structure GalleryInfo where
  id : String
  title : String
  url : String
  tags : List String
  artist : Option String := none
  pages : Option Nat := none
  description : Option String := none
  thumbnail_url : Option String := none
  metadata : Option (List (String × String)) := none
deriving DecidableEq

/-- A row of the `downloads` table (history.py:38-51). -/
structure DBRow where
  id : Nat
  gallery_id : String
  title : String
  url : String
  download_path : String
  downloaded_at : String
  files_count : Nat
  site : String
  metadata : Option (List (String × String))
deriving DecidableEq

/-- The history store: persisted rows plus the AUTOINCREMENT counter. -/
structure HistoryDB where
  rows : List DBRow
  nextId : Nat
deriving DecidableEq

def emptyDB : HistoryDB := ⟨[], 1⟩

/-- Rows selected by `WHERE gallery_id = ? AND site = ?`. -/
def matchingRows (db : HistoryDB) (gallery_id site : String) : List DBRow :=
  db.rows.filter (fun r => r.gallery_id == gallery_id && r.site == site)

/-- `HistoryManager.is_downloaded` (history.py:92-99):
`SELECT COUNT(*) ... > 0`. -/
def is_downloaded (db : HistoryDB) (gallery_id site : String) : Bool :=
  db.rows.any (fun r => r.gallery_id == gallery_id && r.site == site)

/-- SQLite TEXT ordering on ISO-8601 timestamps. -/
def tsLt (a b : String) : Bool := lexCmp cmpChar a.data b.data == Ordering.lt

/-- `ORDER BY downloaded_at DESC LIMIT 1`: the row with the largest
timestamp (first seen wins ties — one of SQLite's permitted answers). -/
def latestRow (l : List DBRow) : Option DBRow :=
  l.foldl (fun acc r =>
    match acc with
    | none => some r
    | some b => if tsLt b.downloaded_at r.downloaded_at then some r else some b) none

/-- `HistoryManager.get_download_id` (history.py:101-109). -/
def get_download_id (db : HistoryDB) (gallery_id site : String) : Option Nat :=
  (latestRow (matchingRows db gallery_id site)).map DBRow.id

/-- `if gallery_info.metadata: metadata_json = json.dumps(...)` —
a `None` or empty map is falsy and stores SQL NULL. -/
def metadataJson (g : GalleryInfo) : Option (List (String × String)) :=
  match g.metadata with
  | some m => if m.isEmpty then none else some m
  | none => none

/-- `HistoryManager.add_download` (history.py:58-90); `now` is the
`datetime.now().isoformat()` timestamp, an external input. -/
def add_download (db : HistoryDB) (gallery_info : GalleryInfo) (download_path : String)
    (files_count : Nat) (site : String) (now : String) : Option Nat × HistoryDB :=
  if is_downloaded db gallery_info.id site then
    (get_download_id db gallery_info.id site, db)
  else
    let row : DBRow :=
      ⟨db.nextId, gallery_info.id, gallery_info.title, gallery_info.url, download_path,
        now, files_count, site, metadataJson gallery_info⟩
    (some db.nextId, ⟨db.rows ++ [row], db.nextId + 1⟩)

/-- Aggregates of `HistoryManager.get_stats` (history.py:178-205);
`cutoff` is the `datetime('now', '-7 days')` timestamp computed by
SQLite, an external input. -/
structure Stats where
  total_downloads : Nat
  total_files : Nat
  by_site : String → Nat
  recent_downloads : Nat

def get_stats (db : HistoryDB) (cutoff : String) : Stats :=
  { total_downloads := db.rows.length
    total_files := (db.rows.map DBRow.files_count).sum
    by_site := fun s => (db.rows.filter (fun r => r.site == s)).length
    recent_downloads := (db.rows.filter (fun r => !(tsLt r.downloaded_at cutoff))).length }

/-! ### Claims C1 and C7 -/

theorem latestRow_foldl_mem :
    ∀ (l : List DBRow) (b r : DBRow),
      l.foldl (fun acc r =>
        match acc with
        | none => some r
        | some b => if tsLt b.downloaded_at r.downloaded_at then some r else some b)
        (some b) = some r → r = b ∨ r ∈ l := by
  intro l
  induction l with
  | nil => intro b r h; exact Or.inl (Option.some.inj h).symm
  | cons x xs ih =>
    intro b r h
    simp only [List.foldl_cons] at h
    by_cases hx : tsLt b.downloaded_at x.downloaded_at
    · rw [if_pos hx] at h
      rcases ih x r h with h1 | h1
      · exact Or.inr (h1 ▸ List.mem_cons_self x xs)
      · exact Or.inr (List.mem_cons_of_mem x h1)
    · rw [if_neg hx] at h
      rcases ih b r h with h1 | h1
      · exact Or.inl h1
      · exact Or.inr (List.mem_cons_of_mem x h1)

theorem latestRow_mem (l : List DBRow) (r : DBRow) (h : latestRow l = some r) : r ∈ l := by
  cases l with
  | nil => exact absurd h (by simp [latestRow])
  | cons x xs =>
    have h2 : xs.foldl (fun acc r =>
        match acc with
        | none => some r
        | some b => if tsLt b.downloaded_at r.downloaded_at then some r else some b)
        (some x) = some r := h
    rcases latestRow_foldl_mem xs x r h2 with h3 | h3
    · exact h3 ▸ List.mem_cons_self x xs
    · exact List.mem_cons_of_mem x h3

theorem is_downloaded_iff (db : HistoryDB) (gid site : String) :
    is_downloaded db gid site = true ↔ matchingRows db gid site ≠ [] := by
  unfold is_downloaded matchingRows
  rw [List.any_eq_true]
  constructor
  · rintro ⟨r, hr, hp⟩ hnil
    have hmem : r ∈ db.rows.filter (fun r => r.gallery_id == gid && r.site == site) :=
      List.mem_filter.mpr ⟨hr, hp⟩
    rw [hnil] at hmem
    simp at hmem
  · intro hne
    rcases List.exists_mem_of_ne_nil _ hne with ⟨r, hr⟩
    rcases List.mem_filter.mp hr with ⟨h1, h2⟩
    exact ⟨r, h1, h2⟩

theorem matchingRows_insert (db : HistoryDB) (g : GalleryInfo) (p : String) (f : Nat)
    (site now : String) (hd : is_downloaded db g.id site = false) :
    matchingRows (add_download db g p f site now).2 g.id site =
      [⟨db.nextId, g.id, g.title, g.url, p, now, f, site, metadataJson g⟩] := by
  have hnil : matchingRows db g.id site = [] := by
    by_contra hne
    have hcontra : is_downloaded db g.id site = true := (is_downloaded_iff db g.id site).mpr hne
    rw [hd] at hcontra
    exact Bool.false_ne_true hcontra
  unfold add_download
  rw [if_neg (by rw [hd]; exact Bool.false_ne_true)]
  unfold matchingRows at hnil ⊢
  simp only [List.filter_append, hnil, List.nil_append]
  simp

/-- C1: idempotent history insert.  If an entry for
`(gallery_info.id, site)` exists, `add_download` returns an existing
matching entry's id and leaves the store untouched; if moreover the
store holds at most one row for the key, two sequential calls return
the same defined id, the second call changes nothing, and exactly one
row for the key remains. -/
theorem C1_add_download_idempotent (db : HistoryDB) (g : GalleryInfo)
    (p1 p2 : String) (f1 f2 : Nat) (site now1 now2 : String)
    (hcount : (matchingRows db g.id site).length ≤ 1) :
    (is_downloaded db g.id site = true →
      (add_download db g p1 f1 site now1).2 = db ∧
      ∃ r ∈ matchingRows db g.id site, (add_download db g p1 f1 site now1).1 = some r.id) ∧
    (add_download db g p1 f1 site now1).1.isSome ∧
    (add_download (add_download db g p1 f1 site now1).2 g p2 f2 site now2).1 =
      (add_download db g p1 f1 site now1).1 ∧
    (add_download (add_download db g p1 f1 site now1).2 g p2 f2 site now2).2 =
      (add_download db g p1 f1 site now1).2 ∧
    (matchingRows (add_download db g p1 f1 site now1).2 g.id site).length = 1 := by
  by_cases hd : is_downloaded db g.id site = true
  · -- the key already exists: both calls are pure lookups
    have hne : matchingRows db g.id site ≠ [] := (is_downloaded_iff db g.id site).mp hd
    have hlen1 : (matchingRows db g.id site).length = 1 := by
      have : 0 < (matchingRows db g.id site).length := List.length_pos.mpr hne
      omega
    rcases List.length_eq_one.mp hlen1 with ⟨r, hr⟩
    have hget : get_download_id db g.id site = some r.id := by
      unfold get_download_id
      rw [hr]
      rfl
    have h1 : add_download db g p1 f1 site now1 = (some r.id, db) := by
      unfold add_download
      rw [if_pos hd, hget]
    refine ⟨fun _ => ⟨by rw [h1], r, by rw [hr]; exact List.mem_singleton_self r, by rw [h1]⟩,
      ?_, ?_, ?_, ?_⟩
    · rw [h1]; rfl
    · rw [h1]
      show (add_download db g p2 f2 site now2).1 = some r.id
      unfold add_download
      rw [if_pos hd, hget]
    · rw [h1]
      show (add_download db g p2 f2 site now2).2 = db
      unfold add_download
      rw [if_pos hd, hget]
    · rw [h1, hlen1]
  · -- fresh key: the first call inserts, the second looks the row up
    have hd2 : is_downloaded db g.id site = false := by
      cases h : is_downloaded db g.id site
      · rfl
      · exact absurd h hd
    have h1 : add_download db g p1 f1 site now1 =
        (some db.nextId,
          ⟨db.rows ++ [⟨db.nextId, g.id, g.title, g.url, p1, now1, f1, site, metadataJson g⟩],
            db.nextId + 1⟩) := by
      unfold add_download
      rw [if_neg hd]
    have hm1 := matchingRows_insert db g p1 f1 site now1 hd2
    have hd1 : is_downloaded (add_download db g p1 f1 site now1).2 g.id site = true := by
      rw [is_downloaded_iff, hm1]
      simp
    have hget1 : get_download_id (add_download db g p1 f1 site now1).2 g.id site =
        some db.nextId := by
      unfold get_download_id
      rw [hm1]
      rfl
    have hstep : ∀ dbx : HistoryDB, is_downloaded dbx g.id site = true →
        get_download_id dbx g.id site = some db.nextId →
        add_download dbx g p2 f2 site now2 = (some db.nextId, dbx) := by
      intro dbx hx hg
      unfold add_download
      rw [if_pos hx, hg]
    have h2 : add_download (add_download db g p1 f1 site now1).2 g p2 f2 site now2 =
        (some db.nextId, (add_download db g p1 f1 site now1).2) :=
      hstep _ hd1 hget1
    refine ⟨fun hcontra => absurd hcontra hd, ?_, ?_, ?_, ?_⟩
    · rw [h1]; rfl
    · rw [h2, h1]
    · rw [h2]
    · rw [hm1]
      rfl

/-- Closed instantiation of the C1 theorem: a fresh store, two
`add_download` calls for gallery id `147838` on site `hentaifox`. -/
theorem C1_add_download_idempotent_witness :
    (add_download (add_download emptyDB ⟨"147838", "t", "u", [], none, none, none, none, none⟩
          "p" 49 "hentaifox" "t1").2
        ⟨"147838", "t", "u", [], none, none, none, none, none⟩ "p" 49 "hentaifox" "t2").1 =
      (add_download emptyDB ⟨"147838", "t", "u", [], none, none, none, none, none⟩
        "p" 49 "hentaifox" "t1").1 ∧
    (matchingRows (add_download emptyDB ⟨"147838", "t", "u", [], none, none, none, none, none⟩
        "p" 49 "hentaifox" "t1").2 "147838" "hentaifox").length = 1 := by
  have h := C1_add_download_idempotent emptyDB
    ⟨"147838", "t", "u", [], none, none, none, none, none⟩ "p" "p" 49 49 "hentaifox"
    "t1" "t2" (by decide)
  exact ⟨h.2.2.1, h.2.2.2.2⟩

/-- The DB state after recording three distinct galleries with
`files_count` values 3, 5, 0. -/
def statsScenarioDB : HistoryDB :=
  (add_download (add_download (add_download emptyDB
      ⟨"1", "a", "u1", [], none, none, none, none, none⟩ "p1" 3 "hentaifox" "t1").2
      ⟨"2", "b", "u2", [], none, none, none, none, none⟩ "p2" 5 "hentaifox" "t2").2
      ⟨"3", "c", "u3", [], none, none, none, none, none⟩ "p3" 0 "hentaifox" "t3").2

/-- C7: `get_stats` reports `total_downloads` as the number of stored
rows and `total_files` as the sum of `files_count` over all rows (0 for
an empty store); after recording three entries with counts 3, 5, 0 it
reports `total_files = 8` and `total_downloads = 3`. -/
theorem C7_get_stats_consistency (db : HistoryDB) (cutoff : String) :
    (get_stats db cutoff).total_downloads = db.rows.length ∧
    (get_stats db cutoff).total_files = (db.rows.map DBRow.files_count).sum ∧
    (db.rows = [] → (get_stats db cutoff).total_files = 0) ∧
    (get_stats statsScenarioDB "t0").total_files = 8 ∧
    (get_stats statsScenarioDB "t0").total_downloads = 3 := by
  refine ⟨rfl, rfl, fun h => ?_, ?_, ?_⟩
  · unfold get_stats
    rw [h]
    rfl
  · decide
  · decide

/-! ### `GalleryDLDownloader` (core/downloader.py) -/

/-- The invalid filename characters (downloader.py:192). -/
def invalidChars : List Char := ['<', '>', ':', '"', '/', '\\', '|', '?', '*']

/-- One `filename.replace(char, underscore)` pass. -/
def replaceChar (c : Char) (l : List Char) : List Char :=
  l.map (fun x => if x = c then '_' else x)

/-- Python `str.strip()`: drop whitespace at both ends. -/
def pyStrip (l : List Char) : List Char :=
  ((l.dropWhile Char.isWhitespace).reverse.dropWhile Char.isWhitespace).reverse

/-- The replacement loop of `_sanitize_filename` (downloader.py:192-194). -/
def sanitizedCore (s : String) : List Char :=
  invalidChars.foldl (fun acc c => replaceChar c acc) s.data

/-- The length cap of `_sanitize_filename` (downloader.py:197-198):
`filename[:200] + "..."` when longer than 200. -/
def sanitizedCapped (s : String) : List Char :=
  if 200 < (sanitizedCore s).length then (sanitizedCore s).take 200 ++ ("...".data)
  else sanitizedCore s

/-- `GalleryDLDownloader._sanitize_filename` (downloader.py:189-200). -/
def sanitize_filename (s : String) : String :=
  String.mk (pyStrip (sanitizedCapped s))

/-! ### Claim C8 -/

theorem mem_replaceChar {x c : Char} {l : List Char} (h : x ∈ replaceChar c l) :
    x = '_' ∨ (x ∈ l ∧ x ≠ c) := by
  unfold replaceChar at h
  rcases List.mem_map.mp h with ⟨y, hy, hmap⟩
  by_cases hyc : y = c
  · left; rw [← hmap, if_pos hyc]
  · right
    rw [← hmap, if_neg hyc]
    exact ⟨hy, hyc⟩

theorem mem_foldl_replace :
    ∀ (L l : List Char) (x : Char),
      x ∈ L.foldl (fun acc c => replaceChar c acc) l → x = '_' ∨ (x ∈ l ∧ x ∉ L) := by
  intro L
  induction L with
  | nil => intro l x h; exact Or.inr ⟨h, by simp⟩
  | cons c cs ih =>
    intro l x h
    simp only [List.foldl_cons] at h
    rcases ih (replaceChar c l) x h with h1 | ⟨h2, h3⟩
    · exact Or.inl h1
    · rcases mem_replaceChar h2 with h4 | ⟨h5, h6⟩
      · exact Or.inl h4
      · refine Or.inr ⟨h5, ?_⟩
        simp only [List.mem_cons]
        rintro (rfl | hc)
        · exact h6 rfl
        · exact h3 hc

theorem mem_pyStrip {x : Char} {l : List Char} (h : x ∈ pyStrip l) : x ∈ l := by
  unfold pyStrip at h
  rw [List.mem_reverse] at h
  have h2 : x ∈ (l.dropWhile Char.isWhitespace).reverse := (List.dropWhile_sublist _).subset h
  rw [List.mem_reverse] at h2
  exact (List.dropWhile_sublist _).subset h2

theorem length_pyStrip_le (l : List Char) : (pyStrip l).length ≤ l.length := by
  unfold pyStrip
  have h1 : ((l.dropWhile Char.isWhitespace).reverse.dropWhile Char.isWhitespace).length ≤
      (l.dropWhile Char.isWhitespace).reverse.length := (List.dropWhile_sublist _).length_le
  have h2 : (l.dropWhile Char.isWhitespace).length ≤ l.length :=
    (List.dropWhile_sublist _).length_le
  simp only [List.length_reverse] at *
  omega

set_option maxRecDepth 8192 in
/-- C8 counterexample: the claimed 200-character cap fails — a
201-character title sanitizes to 203 characters (200 kept plus the
three-dot marker). -/
theorem C8_sanitize_length_cap_counterexample :
    200 < (sanitize_filename (String.mk (List.replicate 201 'a'))).length ∧
    (sanitize_filename (String.mk (List.replicate 201 'a'))).length = 203 := by
  decide

/-- C8 (amended): every invalid character is replaced by an underscore,
and the sanitized name is length-capped at 203 characters (200 kept
characters plus the "..." marker appended to truncated names). -/
theorem C8_sanitize_filename_sanitizes (s : String) :
    (∀ c ∈ (sanitize_filename s).data, c ∉ invalidChars) ∧
    (sanitize_filename s).length ≤ 203 := by
  constructor
  · intro c hc hinv
    have hc1 : c ∈ sanitizedCapped s := mem_pyStrip hc
    have hcore : c ∈ sanitizedCore s → False := by
      intro h
      rcases mem_foldl_replace invalidChars s.data c h with h1 | ⟨_, hn⟩
      · subst h1
        exact absurd hinv (by decide)
      · exact hn hinv
    unfold sanitizedCapped at hc1
    split at hc1
    · rcases List.mem_append.mp hc1 with h2 | h2
      · exact hcore (List.take_subset _ _ h2)
      · have : c = '.' := by
          simp only [List.mem_singleton] at h2
          simpa using h2
        subst this
        exact absurd hinv (by decide)
    · exact hcore hc1
  · show (pyStrip (sanitizedCapped s)).length ≤ 203
    have h1 := length_pyStrip_le (sanitizedCapped s)
    have h2 : (sanitizedCapped s).length ≤ 203 := by
      unfold sanitizedCapped
      split
      · rename_i hgt
        rw [List.length_append, List.length_take]
        have h3 : ("...".data).length = 3 := by decide
        have h4 : min 200 (sanitizedCore s).length = 200 := Nat.min_eq_left (le_of_lt hgt)
        omega
      · rename_i hle
        omega
    omega

/-! ### Job runner and batch orchestrator -/

/-- `DownloadResult` (downloader.py:20-27). -/
structure DownloadResult where
  success : Bool
  gallery_info : Option GalleryInfo
  download_path : Option String
  files_downloaded : Nat
  error_message : Option String
deriving DecidableEq

/-- Outcome of the gallery-dl subprocess for one URL: timeout expiry,
an arbitrary exception raised around the call, or completion with an
exit code and captured stdout/stderr. -/
inductive SubProcOutcome where
  | timeout
  | exc (msg : String)
  | completed (returncode : Nat) (stdout stderr : String)
deriving DecidableEq

def startsWith : List Char → List Char → Bool
  | [], _ => true
  | _ :: _, [] => false
  | a :: as, b :: bs => a == b && startsWith as bs

/-- Python `needle in haystack` on strings. -/
def containsSub (needle : List Char) : List Char → Bool
  | [] => needle.isEmpty
  | c :: t => startsWith needle (c :: t) || containsSub needle t

/-- The extensions scanned for in subprocess output lines
(downloader.py:207, 221). -/
def outputExts : List String := [".webp", ".jpg", ".png", ".gif"]

def splitLinesAux : List Char → List Char → List (List Char)
  | [], acc => [acc.reverse]
  | c :: t, acc => if c = '\n' then acc.reverse :: splitLinesAux t [] else splitLinesAux t (c :: acc)

/-- Python `output.split('\n')`. -/
def splitLines (s : String) : List (List Char) := splitLinesAux s.data []

/-- `pathlib.Path(p).parent` for ordinary paths (no trailing slash). -/
def pathParent (l : List Char) : List Char :=
  match l.reverse.dropWhile (fun c => !(c == '/')) with
  | [] => ['.']
  | _ :: rest => if rest.isEmpty then ['/'] else rest.reverse

/-- `GalleryDLDownloader._extract_download_path` (downloader.py:202-212):
the parent directory of the first output line holding `Downloads` and an
image extension. -/
def extract_download_path (output : String) : Option String :=
  ((splitLines output).find? (fun line =>
      containsSub ("Downloads".data) line &&
        outputExts.any (fun e => containsSub e.data line))).map
    (fun line => String.mk (pathParent (pyStrip line)))

/-- `GalleryDLDownloader._count_downloaded_files` (downloader.py:214-226). -/
def count_downloaded_files (output : String) : Nat :=
  ((splitLines output).filter (fun line =>
      (outputExts.any (fun e => containsSub e.data line) &&
        containsSub ("Downloads".data) line) &&
      !(["error", "failed", "skipping"].any
          (fun w => containsSub w.data (line.map Char.toLower))))).length

/-- `GalleryDLDownloader.download_gallery` (downloader.py:62-136):
runs the subprocess (outcome `w`), parses stdout on exit code 0 and
records history when enabled and metadata is known; timeouts and
exceptions are converted to failed results.  `now` is the wall-clock
timestamp used for the history row. -/
def download_gallery (w : SubProcOutcome) (enableHistory : Bool) (db : HistoryDB)
    (now : String) (_url : String) (gallery_info : Option GalleryInfo) :
    DownloadResult × HistoryDB :=
  match w with
  | .timeout => (⟨false, gallery_info, none, 0, some "Download timed out"⟩, db)
  | .exc e => (⟨false, gallery_info, none, 0, some e⟩, db)
  | .completed rc stdout stderr =>
    if rc = 0 then
      let download_path := extract_download_path stdout
      let files_count := count_downloaded_files stdout
      let db2 :=
        match enableHistory, gallery_info, download_path with
        | true, some g, some p => (add_download db g p files_count "hentaifox" now).2
        | _, _, _ => db
      (⟨true, gallery_info, download_path, files_count, none⟩, db2)
    else (⟨false, gallery_info, none, 0, some stderr⟩, db)

/-- One submitted future: the job's subprocess outcome, an exception
escaping the job function (re-raised by `future.result()` and caught in
the collecting loop), and the job's history timestamp. -/
structure JobSpec where
  sub : SubProcOutcome
  escape : Option String
  now : String
deriving DecidableEq

/-- The failed result the collecting loop builds from a raised
exception (downloader.py:160-168). -/
def failedResult (e : String) : DownloadResult := ⟨false, none, none, 0, some e⟩

/-- The result recorded for job `i` (each job calls `download_gallery`
with `gallery_info = None`). -/
def jobResult (urls : List String) (jobs : List JobSpec) (enableHistory : Bool)
    (i : Nat) : DownloadResult :=
  match (jobs.getD i ⟨.timeout, none, ""⟩).escape with
  | some e => failedResult e
  | none =>
    (download_gallery (jobs.getD i ⟨.timeout, none, ""⟩).sub enableHistory emptyDB
      (jobs.getD i ⟨.timeout, none, ""⟩).now (urls.getD i "") none).1

/-- One iteration of the `as_completed` collecting loop. -/
def dmStep (urls : List String) (jobs : List JobSpec) (enableHistory : Bool)
    (acc : List DownloadResult × HistoryDB) (i : Nat) : List DownloadResult × HistoryDB :=
  match (jobs.getD i ⟨.timeout, none, ""⟩).escape with
  | some e => (acc.1 ++ [failedResult e], acc.2)
  | none =>
    let p := download_gallery (jobs.getD i ⟨.timeout, none, ""⟩).sub enableHistory acc.2
      (jobs.getD i ⟨.timeout, none, ""⟩).now (urls.getD i "") none
    (acc.1 ++ [p.1], p.2)

/-- `GalleryDLDownloader.download_multiple` (downloader.py:138-170):
one future per URL, collected in completion order `order` (a
permutation of the submitted indices); the shared history store is
threaded through in completion order. -/
def download_multiple (urls : List String) (jobs : List JobSpec) (enableHistory : Bool)
    (order : List Nat) (db : HistoryDB) : List DownloadResult × HistoryDB :=
  order.foldl (dmStep urls jobs enableHistory) ([], db)

/-! ### Claims C2 and C3 -/

theorem download_gallery_fst_db (w : SubProcOutcome) (eh : Bool) (db db2 : HistoryDB)
    (now url : String) (gi : Option GalleryInfo) :
    (download_gallery w eh db now url gi).1 = (download_gallery w eh db2 now url gi).1 := by
  cases w with
  | timeout => rfl
  | exc e => rfl
  | completed rc stdout stderr =>
    simp only [download_gallery]
    by_cases h : rc = 0
    · rw [if_pos h, if_pos h]
    · rw [if_neg h, if_neg h]

theorem dmStep_fst (urls : List String) (jobs : List JobSpec) (eh : Bool)
    (acc : List DownloadResult × HistoryDB) (i : Nat) :
    (dmStep urls jobs eh acc i).1 = acc.1 ++ [jobResult urls jobs eh i] := by
  unfold dmStep jobResult
  cases h : (jobs.getD i ⟨.timeout, none, ""⟩).escape with
  | some e => rfl
  | none =>
    show acc.1 ++ [(download_gallery _ eh acc.2 _ _ none).1] = _
    rw [download_gallery_fst_db (jobs.getD i ⟨.timeout, none, ""⟩).sub eh acc.2 emptyDB]

theorem dm_foldl_fst :
    ∀ (order : List Nat) (urls : List String) (jobs : List JobSpec) (eh : Bool)
      (acc : List DownloadResult × HistoryDB),
      (order.foldl (dmStep urls jobs eh) acc).1 = acc.1 ++ order.map (jobResult urls jobs eh) := by
  intro order
  induction order with
  | nil => intro urls jobs eh acc; simp
  | cons i rest ih =>
    intro urls jobs eh acc
    simp only [List.foldl_cons, List.map_cons]
    rw [ih, dmStep_fst]
    simp

theorem download_multiple_results (urls : List String) (jobs : List JobSpec) (eh : Bool)
    (order : List Nat) (db : HistoryDB) :
    (download_multiple urls jobs eh order db).1 = order.map (jobResult urls jobs eh) := by
  unfold download_multiple
  rw [dm_foldl_fst]
  rfl

/-- C2: batch result count — for every URL list (valid or invalid,
duplicates allowed) and every completion order of the submitted jobs,
`download_multiple` returns exactly one `DownloadResult` per input URL. -/
theorem C2_download_multiple_count (urls : List String) (jobs : List JobSpec)
    (eh : Bool) (order : List Nat) (db : HistoryDB)
    (horder : order.Perm (List.range urls.length)) :
    (download_multiple urls jobs eh order db).1.length = urls.length := by
  rw [download_multiple_results, List.length_map, horder.length_eq, List.length_range]

theorem C2_download_multiple_count_witness :
    (download_multiple ["bad-url", "https://hentaifox.com/gallery/1/"]
        [⟨.exc "invalid URL", none, "t1"⟩, ⟨.completed 0 "" "", none, "t2"⟩]
        true [1, 0] emptyDB).1.length = 2 :=
  C2_download_multiple_count _ _ _ _ _ (by decide)

/-- C3: fault isolation and exception capture — the result list of
`download_multiple` is a permutation of the per-job converted results
(every job contributes exactly one result and nothing propagates as an
exception); an exception escaping job `i` appears as a failed result
carrying its text, and a timed-out job appears as the failed
`Download timed out` result, without removing any sibling's result. -/
theorem C3_download_multiple_fault_isolation (urls : List String) (jobs : List JobSpec)
    (eh : Bool) (order : List Nat) (db : HistoryDB)
    (horder : order.Perm (List.range urls.length)) :
    (download_multiple urls jobs eh order db).1.Perm
      ((List.range urls.length).map (jobResult urls jobs eh)) ∧
    (∀ i e, i < urls.length → (jobs.getD i ⟨.timeout, none, ""⟩).escape = some e →
      failedResult e ∈ (download_multiple urls jobs eh order db).1) ∧
    (∀ i, i < urls.length → (jobs.getD i ⟨.timeout, none, ""⟩).escape = none →
      (jobs.getD i ⟨.timeout, none, ""⟩).sub = .timeout →
      (⟨false, none, none, 0, some "Download timed out"⟩ : DownloadResult) ∈
        (download_multiple urls jobs eh order db).1) := by
  have hperm : (download_multiple urls jobs eh order db).1.Perm
      ((List.range urls.length).map (jobResult urls jobs eh)) := by
    rw [download_multiple_results]
    exact horder.map _
  refine ⟨hperm, ?_, ?_⟩
  · intro i e hi hesc
    have hmem : jobResult urls jobs eh i ∈ (List.range urls.length).map (jobResult urls jobs eh) :=
      List.mem_map_of_mem _ (List.mem_range.mpr hi)
    have heq : jobResult urls jobs eh i = failedResult e := by
      unfold jobResult
      rw [hesc]
    rw [← heq]
    exact hperm.mem_iff.mpr hmem
  · intro i hi hesc hsub
    have hmem : jobResult urls jobs eh i ∈ (List.range urls.length).map (jobResult urls jobs eh) :=
      List.mem_map_of_mem _ (List.mem_range.mpr hi)
    have heq : jobResult urls jobs eh i =
        ⟨false, none, none, 0, some "Download timed out"⟩ := by
      unfold jobResult
      rw [hesc, hsub]
      rfl
    rw [← heq]
    exact hperm.mem_iff.mpr hmem

theorem C3_download_multiple_fault_isolation_witness :
    failedResult "boom" ∈
      (download_multiple ["u1", "u2"]
        [⟨.completed 0 "" "", some "boom", "t1"⟩, ⟨.timeout, none, "t2"⟩]
        true [1, 0] emptyDB).1 ∧
    (⟨false, none, none, 0, some "Download timed out"⟩ : DownloadResult) ∈
      (download_multiple ["u1", "u2"]
        [⟨.completed 0 "" "", some "boom", "t1"⟩, ⟨.timeout, none, "t2"⟩]
        true [1, 0] emptyDB).1 := by
  have h := C3_download_multiple_fault_isolation ["u1", "u2"]
    [⟨.completed 0 "" "", some "boom", "t1"⟩, ⟨.timeout, none, "t2"⟩]
    true [1, 0] emptyDB (by decide)
  exact ⟨h.2.1 0 "boom" (by decide) (by decide), h.2.2 1 (by decide) (by decide) (by decide)⟩

/-! ### `HentaiFoxSite._parse_gallery_list` pagination
(sites/hentaifox.py:245-303)

The HTML scraping itself is the external collaborator; what the
pagination code consumes is: the numeric page links found in a
pagination block (if any), whether a Next-style link is present, and an
optional total from a `Page X of Y` text. -/

/-- `SearchResult` (sites/base.py:23-30). -/
structure SearchResult where
  galleries : List GalleryInfo
  total_count : Nat
  current_page : Nat
  total_pages : Nat
  has_next : Bool
deriving DecidableEq

/-- Parsed content of the pagination block, when one was found. -/
structure PaginationParse where
  pageNumbers : List Nat
  hasNextLink : Bool
deriving DecidableEq

/-- Python `max` over a nonempty list. -/
def maxList : List Nat → Nat
  | [] => 0
  | x :: xs => xs.foldl max x

/-- The pagination tail of `_parse_gallery_list`
(sites/hentaifox.py:245-303): page-link maximum, else Next-link bump,
else `Page X of Y` total, else — with at least 20 extracted results —
the fixed fallback of 10 total pages. -/
def parse_gallery_list_pagination (galleries : List GalleryInfo)
    (pagination : Option PaginationParse) (pageInfoTotal : Option Nat)
    (current_page : Nat) : SearchResult :=
  let tp1 : Nat :=
    match pagination with
    | none => 1
    | some pg =>
      match pg.pageNumbers with
      | [] => if pg.hasNextLink then current_page + 1 else 1
      | x :: xs => maxList (x :: xs)
  let tp2 : Nat :=
    if tp1 = 1 then
      match pageInfoTotal with
      | some t => t
      | none => tp1
    else tp1
  let tp3 : Nat := if tp2 = 1 ∧ 20 ≤ galleries.length then 10 else tp2
  { galleries := galleries
    total_count := galleries.length * tp3
    current_page := current_page
    total_pages := tp3
    has_next := decide (current_page < tp3) }

/-- Twenty extracted gallery results, as on a full listing page. -/
def dummyGalleries : List GalleryInfo :=
  (List.range 20).map (fun _ => ⟨"g", "t", "u", [], none, none, none, none, none⟩)

/-- C9 counterexample: with 20 results, no parsable pagination and
`current_page = 1`, the code sets `total_pages = 10`, not
`current_page + 10 = 11`; and on `current_page = 12` the fallback still
yields `total_pages = 10`, making `has_next` false, not true. -/
theorem C9_pagination_fallback_counterexample :
    (parse_gallery_list_pagination dummyGalleries none none 1).total_pages = 10 ∧
    ¬((parse_gallery_list_pagination dummyGalleries none none 1).total_pages = 1 + 10) ∧
    (parse_gallery_list_pagination dummyGalleries none none 12).has_next = false := by
  decide

/-- C9 (amended): when no pagination information can be parsed (no
pagination block, or one with neither numeric page links nor a Next
link), no `Page X of Y` text matched, and at least 20 gallery results
were extracted, the parser assumes a fixed total of 10 pages:
`total_pages = 10` and `has_next` is `current_page < 10`. -/
theorem C9_pagination_fallback (galleries : List GalleryInfo)
    (pagination : Option PaginationParse) (current_page : Nat)
    (hpag : pagination = none ∨
      ∃ pg, pagination = some pg ∧ pg.pageNumbers = [] ∧ pg.hasNextLink = false)
    (hcount : 20 ≤ galleries.length) :
    (parse_gallery_list_pagination galleries pagination none current_page).total_pages = 10 ∧
    (parse_gallery_list_pagination galleries pagination none current_page).has_next =
      decide (current_page < 10) := by
  unfold parse_gallery_list_pagination
  rcases hpag with rfl | ⟨pg, rfl, h1, h2⟩
  · simp [hcount]
  · simp [h1, h2, hcount]

theorem C9_pagination_fallback_witness :
    (parse_gallery_list_pagination dummyGalleries (some ⟨[], false⟩) none 3).total_pages = 10 ∧
    (parse_gallery_list_pagination dummyGalleries (some ⟨[], false⟩) none 3).has_next = true := by
  have h := C9_pagination_fallback dummyGalleries (some ⟨[], false⟩) 3
    (Or.inr ⟨⟨[], false⟩, rfl, rfl, rfl⟩) (by decide)
  exact ⟨h.1, by rw [h.2]; decide⟩

end HFox
